import Mathlib

/-!
Shallow embedding of `src/app/main.py` (a Battleship game core) and proofs
of its specification properties.

The Python program has three classes:
* `Deck` — one grid cell of a ship, with `row`, `column`, `is_alive`;
* `Ship` — built from two endpoints, owning a list of decks, with
  `get_deck` and `fire`;
* `Battleship` — owning the ships and a dict mapping each occupied
  coordinate to the ship occupying it, with `fire`.

Python mutation is modelled by explicit state passing: a `Battleship`
holds the list of ships and an association list from coordinate to ship
index; the dict's last-write-wins overwrite is modelled by prepending
entries and looking up the first match (the chronologically last write).
`ValueError` is modelled by `Except String`.
-/

namespace PyBattleship

/-- One deck (grid cell) of a ship: `Deck.__init__` stores `row`,
`column` and `is_alive`. -/
structure Deck where
  row : Int
  column : Int
  is_alive : Bool
deriving Repr, DecidableEq

/-- `Deck(row, column)` with the default `is_alive=True`. -/
def Deck.new (row column : Int) : Deck :=
  ⟨row, column, true⟩

/-- A ship is its list of decks (`self.decks`). -/
structure Ship where
  decks : List Deck
deriving Repr, DecidableEq

/-- The error message raised by `Ship.__init__` for a non-axis-aligned
placement. -/
def placementError : String :=
  "Ships must be placed horizontally or vertically"

/-- `Ship.__init__(start, end)`: if the rows agree, one deck per column
from `min(column1, column2)` to `max(column1, column2)`; else if the
columns agree, one deck per row from `min(row1, row2)` to
`max(row1, row2)`; else `raise ValueError(...)`.  `range(a, b + 1)` over
the integers `a ≤ b` is rendered as `List.range (b - a).toNat + 1`
shifted by `a`. -/
def Ship.init (start finish : Int × Int) : Except String Ship :=
  let row1 := start.1
  let column1 := start.2
  let row2 := finish.1
  let column2 := finish.2
  if row1 = row2 then
    .ok ⟨(List.range ((max column1 column2 - min column1 column2).toNat + 1)).map
      (fun (i : Nat) => Deck.new row1 (min column1 column2 + (i : Int)))⟩
  else if column1 = column2 then
    .ok ⟨(List.range ((max row1 row2 - min row1 row2).toNat + 1)).map
      (fun (i : Nat) => Deck.new (min row1 row2 + (i : Int)) column1)⟩
  else
    .error placementError

/-- The test `deck.row == row and deck.column == column` from
`Ship.get_deck`. -/
def hitP (row column : Int) (d : Deck) : Bool :=
  d.row == row && d.column == column

/-- `Ship.get_deck(row, column)`: linear search for the first deck with
the given coordinates, `None` when absent. -/
def Ship.get_deck (s : Ship) (row column : Int) : Option Deck :=
  s.decks.find? (hitP row column)

/-- Set `is_alive = False` on the first deck matching the coordinates,
leaving every other deck untouched: this is the effect of
`deck.is_alive = False` on the deck returned by `get_deck`. -/
def setFirstDead : List Deck → Int → Int → List Deck
  | [], _, _ => []
  | d :: ds, row, column =>
    if hitP row column d then
      ⟨d.row, d.column, false⟩ :: ds
    else
      d :: setFirstDead ds row column

/-- `Ship.fire(row, column)`: `"Miss!"` when `get_deck` finds nothing;
otherwise kill the found deck, then `"Sunk!"` if all decks are dead and
`"Hit!"` otherwise.  Returns the outcome string together with the
post-state of the ship. -/
def Ship.fire (s : Ship) (row column : Int) : String × Ship :=
  match s.get_deck row column with
  | none => ("Miss!", s)
  | some _ =>
    let decks := setFirstDead s.decks row column
    if decks.all (fun d => !d.is_alive) then
      ("Sunk!", ⟨decks⟩)
    else
      ("Hit!", ⟨decks⟩)

/-- The game state: the ships and the dict `self.field` mapping each
occupied coordinate to the index (in `ships`) of the occupying ship.
Entries are kept most-recent-first, so the first match is the last
write, as in a Python dict. -/
structure Battleship where
  ships : List Ship
  field : List ((Int × Int) × Nat)
deriving Repr, DecidableEq

/-- Register every deck of one ship in the field:
`self.field[(deck.row, deck.column)] = ship`, one deck at a time. -/
def registerDecks (idx : Nat) : List Deck → List ((Int × Int) × Nat) → List ((Int × Int) × Nat)
  | [], f => f
  | d :: ds, f => registerDecks idx ds (((d.row, d.column), idx) :: f)

/-- Register every ship in turn, numbering them from `i`. -/
def registerShips (i : Nat) : List Ship → List ((Int × Int) × Nat) → List ((Int × Int) × Nat)
  | [], f => f
  | s :: ss, f => registerShips (i + 1) ss (registerDecks i s.decks f)

/-- Construct every ship of the input list, propagating the first
`ValueError`. -/
def buildShips : List ((Int × Int) × (Int × Int)) → Except String (List Ship)
  | [] => .ok []
  | (start, finish) :: rest => do
    let ship ← Ship.init start finish
    let ships ← buildShips rest
    .ok (ship :: ships)

/-- `Battleship.__init__(ships)`: build each ship from its endpoint pair
(aborting on the first invalid placement) and index every deck of every
ship by coordinate. -/
def Battleship.init (specs : List ((Int × Int) × (Int × Int))) : Except String Battleship := do
  let ships ← buildShips specs
  .ok ⟨ships, registerShips 0 ships []⟩

/-- Dict lookup on the association list: the first entry is the last
write. -/
def fieldLookup (f : List ((Int × Int) × Nat)) (location : Int × Int) : Option Nat :=
  (f.find? (fun e => e.1 == location)).map (fun e => e.2)

/-- Dict lookup `self.field[location]` (with `location in self.field`
deciding presence). -/
def Battleship.lookup (b : Battleship) (location : Int × Int) : Option Nat :=
  fieldLookup b.field location

/-- `Battleship.fire(location)`: `"Miss!"` when the location is not a
key of the field; otherwise forward to the owning ship's `fire` and
store the ship's post-state back. -/
def Battleship.fire (b : Battleship) (location : Int × Int) : String × Battleship :=
  match b.lookup location with
  | none => ("Miss!", b)
  | some idx =>
    match b.ships.get? idx with
    | none => ("Miss!", b)
    | some ship =>
      let r := ship.fire location.1 location.2
      (r.1, ⟨b.ships.set idx r.2, b.field⟩)

/-- Fire a sequence of shots at a single ship, collecting the outcomes. -/
def Ship.fireSeq (s : Ship) : List (Int × Int) → List String × Ship
  | [] => ([], s)
  | c :: cs =>
    let r := s.fire c.1 c.2
    let rest := r.2.fireSeq cs
    (r.1 :: rest.1, rest.2)

/-- Fire a sequence of shots at the field, collecting the outcomes. -/
def Battleship.fireSeq (b : Battleship) : List (Int × Int) → List String × Battleship
  | [] => ([], b)
  | c :: cs =>
    let r := b.fire c
    let rest := r.2.fireSeq cs
    (r.1 :: rest.1, rest.2)

/-- The coordinates of a deck, as a pair. -/
def Deck.coord (d : Deck) : Int × Int :=
  (d.row, d.column)

/-- The coordinates of the still-alive decks of a deck list. -/
def aliveCoords (l : List Deck) : List (Int × Int) :=
  (l.filter (fun d => d.is_alive)).map Deck.coord

/-! ### Lemmas about `hitP`, `setFirstDead` and `aliveCoords` -/

theorem hitP_iff (row column : Int) (d : Deck) :
    hitP row column d = true ↔ d.row = row ∧ d.column = column := by
  simp [hitP]

theorem hitP_iff_coord (row column : Int) (d : Deck) :
    hitP row column d = true ↔ d.coord = (row, column) := by
  simp [hitP, Deck.coord, Prod.ext_iff]

theorem setFirstDead_map_coord (l : List Deck) (row column : Int) :
    (setFirstDead l row column).map Deck.coord = l.map Deck.coord := by
  induction l with
  | nil => rfl
  | cons d ds ih =>
    cases h : hitP row column d with
    | true => simp [setFirstDead, h, Deck.coord]
    | false => simp [setFirstDead, h, ih]

theorem setFirstDead_of_find?_none (l : List Deck) (row column : Int)
    (h : l.find? (hitP row column) = none) :
    setFirstDead l row column = l := by
  induction l with
  | nil => rfl
  | cons d ds ih =>
    rw [List.find?_eq_none] at h
    have hd : hitP row column d = false := by
      have := h d (by simp)
      simpa using this
    have hds : ds.find? (hitP row column) = none := by
      rw [List.find?_eq_none]
      exact fun x hx => h x (by simp [hx])
    simp [setFirstDead, hd, ih hds]

theorem setFirstDead_eq_set (l : List Deck) (row column : Int) (k : Nat)
    (h : l.findIdx? (hitP row column) = some k) :
    setFirstDead l row column = l.set k ⟨row, column, false⟩ := by
  induction l generalizing k with
  | nil => simp at h
  | cons d ds ih =>
    rw [List.findIdx?_cons] at h
    cases hd : hitP row column d with
    | true =>
      rw [hd] at h
      simp only [if_pos rfl] at h
      obtain ⟨hr, hc⟩ := (hitP_iff row column d).mp hd
      obtain rfl : (0 : Nat) = k := by simpa using h
      simp [setFirstDead, hd, hr, hc]
    | false =>
      rw [hd] at h
      simp only [Bool.false_eq_true, if_false] at h
      rw [List.findIdx?_succ] at h
      simp only [Option.map_eq_some'] at h
      obtain ⟨k', hk', rfl⟩ := h
      simp [setFirstDead, hd, ih k' hk']

theorem aliveCoords_cons_alive (d : Deck) (ds : List Deck) (h : d.is_alive = true) :
    aliveCoords (d :: ds) = d.coord :: aliveCoords ds := by
  simp [aliveCoords, List.filter_cons, h, Deck.coord]

theorem aliveCoords_cons_dead (d : Deck) (ds : List Deck) (h : d.is_alive = false) :
    aliveCoords (d :: ds) = aliveCoords ds := by
  simp [aliveCoords, List.filter_cons, h]

theorem aliveCoords_sublist (l : List Deck) :
    (aliveCoords l).Sublist (l.map Deck.coord) :=
  (List.filter_sublist l).map Deck.coord

theorem all_dead_iff_aliveCoords_nil (l : List Deck) :
    (l.all fun d => !d.is_alive) = true ↔ aliveCoords l = [] := by
  simp [aliveCoords, List.all_eq_true, List.map_eq_nil_iff, List.filter_eq_nil_iff]

theorem aliveCoords_setFirstDead (l : List Deck) (c : Int × Int)
    (hnd : (l.map Deck.coord).Nodup) (hc : c ∈ aliveCoords l) :
    aliveCoords (setFirstDead l c.1 c.2) = (aliveCoords l).erase c := by
  induction l with
  | nil => simp [aliveCoords] at hc
  | cons d ds ih =>
    simp only [List.map_cons, List.nodup_cons] at hnd
    obtain ⟨hd_not, hnd'⟩ := hnd
    cases hm : hitP c.1 c.2 d with
    | true =>
      have hdc : d.coord = c := by
        have := (hitP_iff_coord c.1 c.2 d).mp hm
        simpa using this
      have halive : d.is_alive = true := by
        by_contra hdead
        have hdead' : d.is_alive = false := by simpa using hdead
        rw [aliveCoords_cons_dead d ds hdead'] at hc
        exact hd_not (hdc ▸ (aliveCoords_sublist ds).subset hc)
      have hL : setFirstDead (d :: ds) c.1 c.2 = ⟨d.row, d.column, false⟩ :: ds := by
        simp [setFirstDead, hm]
      rw [hL, aliveCoords_cons_dead _ _ rfl, aliveCoords_cons_alive d ds halive, hdc,
        List.erase_cons_head]
    | false =>
      have hdc : d.coord ≠ c := by
        intro h
        have : hitP c.1 c.2 d = true := (hitP_iff_coord c.1 c.2 d).mpr (by rw [h])
        rw [hm] at this
        exact Bool.false_ne_true this
      have hL : setFirstDead (d :: ds) c.1 c.2 = d :: setFirstDead ds c.1 c.2 := by
        simp [setFirstDead, hm]
      cases ha : d.is_alive with
      | true =>
        have hc' : c ∈ aliveCoords ds := by
          rw [aliveCoords_cons_alive d ds ha, List.mem_cons] at hc
          rcases hc with h | h
          · exact absurd h.symm hdc
          · exact h
        rw [hL, aliveCoords_cons_alive _ _ ha, aliveCoords_cons_alive d ds ha,
          ih hnd' hc', List.erase_cons_tail (by simpa using hdc)]
      | false =>
        have hc' : c ∈ aliveCoords ds := by
          rw [aliveCoords_cons_dead d ds ha] at hc
          exact hc
        rw [hL, aliveCoords_cons_dead _ _ ha, aliveCoords_cons_dead d ds ha]
        exact ih hnd' hc'

theorem find?_hitP_of_mem (l : List Deck) (c : Int × Int)
    (hc : c ∈ l.map Deck.coord) :
    ∃ d, l.find? (hitP c.1 c.2) = some d := by
  rw [List.mem_map] at hc
  obtain ⟨d, hd, hdc⟩ := hc
  have : (l.find? (hitP c.1 c.2)).isSome := by
    rw [List.find?_isSome]
    exact ⟨d, hd, (hitP_iff_coord c.1 c.2 d).mpr hdc⟩
  exact Option.isSome_iff_exists.mp this

/-! ### Unfolding `Ship.fire` -/

theorem Ship.fire_miss (s : Ship) (row column : Int)
    (h : s.get_deck row column = none) :
    s.fire row column = ("Miss!", s) := by
  simp [Ship.fire, h]

theorem Ship.fire_of_mem (s : Ship) (c : Int × Int)
    (hc : c ∈ s.decks.map Deck.coord) :
    s.fire c.1 c.2 =
      (if aliveCoords (setFirstDead s.decks c.1 c.2) = [] then "Sunk!" else "Hit!",
       ⟨setFirstDead s.decks c.1 c.2⟩) := by
  obtain ⟨d, hd⟩ := find?_hitP_of_mem s.decks c hc
  have hd' : s.get_deck c.1 c.2 = some d := hd
  cases hall : (setFirstDead s.decks c.1 c.2).all (fun d => !d.is_alive) with
  | true =>
    have hnil := (all_dead_iff_aliveCoords_nil _).mp hall
    simp [Ship.fire, hd', hall, hnil]
  | false =>
    have hnnil : ¬ aliveCoords (setFirstDead s.decks c.1 c.2) = [] := by
      intro hnil
      have h2 := (all_dead_iff_aliveCoords_nil _).mpr hnil
      rw [hall] at h2
      exact Bool.false_ne_true h2
    simp [Ship.fire, hd', hall, hnnil]

/-! ### Characterization of `Ship.init` -/

theorem Ship.init_ok_cases (start finish : Int × Int) (s : Ship)
    (h : Ship.init start finish = .ok s) :
    (start.1 = finish.1 ∧
      s.decks = (List.range ((max start.2 finish.2 - min start.2 finish.2).toNat + 1)).map
        (fun (i : Nat) => Deck.new start.1 (min start.2 finish.2 + (i : Int)))) ∨
    (start.1 ≠ finish.1 ∧ start.2 = finish.2 ∧
      s.decks = (List.range ((max start.1 finish.1 - min start.1 finish.1).toNat + 1)).map
        (fun (i : Nat) => Deck.new (min start.1 finish.1 + (i : Int)) start.2)) := by
  unfold Ship.init at h
  by_cases h1 : start.1 = finish.1
  · rw [if_pos h1] at h
    simp only [Except.ok.injEq] at h
    exact Or.inl ⟨h1, by rw [← h]⟩
  · rw [if_neg h1] at h
    by_cases h2 : start.2 = finish.2
    · rw [if_pos h2] at h
      simp only [Except.ok.injEq] at h
      exact Or.inr ⟨h1, h2, by rw [← h]⟩
    · rw [if_neg h2] at h
      exact absurd h (by simp)

theorem Ship.init_error_of_both_ne (start finish : Int × Int)
    (hr : start.1 ≠ finish.1) (hc : start.2 ≠ finish.2) :
    Ship.init start finish = .error placementError := by
  unfold Ship.init
  rw [if_neg hr, if_neg hc]

theorem shipInit_all_alive (start finish : Int × Int) (s : Ship)
    (h : Ship.init start finish = .ok s) :
    ∀ d ∈ s.decks, d.is_alive = true := by
  rcases Ship.init_ok_cases start finish s h with ⟨_, hdecks⟩ | ⟨_, _, hdecks⟩ <;>
    · rw [hdecks]
      intro d hd
      rw [List.mem_map] at hd
      obtain ⟨i, _, rfl⟩ := hd
      rfl

theorem shipInit_coords_nodup (start finish : Int × Int) (s : Ship)
    (h : Ship.init start finish = .ok s) :
    (s.decks.map Deck.coord).Nodup := by
  rcases Ship.init_ok_cases start finish s h with ⟨_, hdecks⟩ | ⟨_, _, hdecks⟩
  · rw [hdecks, List.map_map]
    refine List.Nodup.map ?_ (List.nodup_range _)
    intro i j hij
    simp only [Function.comp, Deck.new, Deck.coord, Prod.mk.injEq] at hij
    omega
  · rw [hdecks, List.map_map]
    refine List.Nodup.map ?_ (List.nodup_range _)
    intro i j hij
    simp only [Function.comp, Deck.new, Deck.coord, Prod.mk.injEq] at hij
    omega

theorem shipInit_length (start finish : Int × Int) (s : Ship)
    (h : Ship.init start finish = .ok s) :
    s.decks.length =
      (start.1 - finish.1).natAbs + (start.2 - finish.2).natAbs + 1 := by
  rcases Ship.init_ok_cases start finish s h with ⟨h1, hdecks⟩ | ⟨_, h2, hdecks⟩
  · rw [hdecks, List.length_map, List.length_range]
    omega
  · rw [hdecks, List.length_map, List.length_range]
    omega

theorem shipInit_decks_ne_nil (start finish : Int × Int) (s : Ship)
    (h : Ship.init start finish = .ok s) :
    s.decks ≠ [] := by
  intro hnil
  have := shipInit_length start finish s h
  rw [hnil] at this
  simp at this

theorem aliveCoords_of_all_alive (l : List Deck)
    (h : ∀ d ∈ l, d.is_alive = true) :
    aliveCoords l = l.map Deck.coord := by
  unfold aliveCoords
  rw [List.filter_eq_self.mpr h]

/-! ### One shot per alive deck: all hits, then sunk -/

theorem perm_cons_erase_beq {α : Type} [BEq α] [LawfulBEq α] {a : α} {l : List α}
    (h : a ∈ l) : List.Perm l (a :: l.erase a) := by
  induction l with
  | nil => simp at h
  | cons b t ih =>
    cases hba : b == a with
    | true =>
      have : b = a := eq_of_beq hba
      subst this
      rw [List.erase_cons_head]
    | false =>
      have hne : a ≠ b := fun hh => by rw [hh] at hba; simp at hba
      have hat : a ∈ t := by
        rw [List.mem_cons] at h
        tauto
      rw [List.erase_cons_tail (by simp [hba])]
      exact (List.Perm.cons b (ih hat)).trans (List.Perm.swap a b _)

theorem fireSeq_perm_aliveCoords (P : List (Int × Int)) :
    ∀ l : List Deck, (l.map Deck.coord).Nodup → P ≠ [] →
      List.Perm P (aliveCoords l) →
      (Ship.fireSeq ⟨l⟩ P).1 =
        List.replicate (P.length - 1) "Hit!" ++ ["Sunk!"] := by
  induction P with
  | nil => intro l _ hne _; exact absurd rfl hne
  | cons c cs ih =>
    intro l hnd _ hperm
    have hc_alive : c ∈ aliveCoords l := hperm.subset (by simp)
    have hc_mem : c ∈ l.map Deck.coord := (aliveCoords_sublist l).subset hc_alive
    have hfire := Ship.fire_of_mem ⟨l⟩ c hc_mem
    have halive' : aliveCoords (setFirstDead l c.1 c.2) = (aliveCoords l).erase c :=
      aliveCoords_setFirstDead l c hnd hc_alive
    have hcs_perm : List.Perm cs ((aliveCoords l).erase c) := by
      have h1 : List.Perm (aliveCoords l) (c :: (aliveCoords l).erase c) :=
        perm_cons_erase_beq hc_alive
      exact (hperm.trans h1).cons_inv
    have hnd' : ((setFirstDead l c.1 c.2).map Deck.coord).Nodup := by
      rw [setFirstDead_map_coord]; exact hnd
    have hstep : (Ship.fireSeq ⟨l⟩ (c :: cs)).1 =
        ((⟨l⟩ : Ship).fire c.1 c.2).1 ::
          (Ship.fireSeq ((⟨l⟩ : Ship).fire c.1 c.2).2 cs).1 := rfl
    by_cases hcs : cs = []
    · subst hcs
      have herase : (aliveCoords l).erase c = [] := (List.Perm.nil_eq hcs_perm).symm
      rw [hstep, hfire]
      simp [Ship.fireSeq, halive', herase]
    · have herase_ne : (aliveCoords l).erase c ≠ [] := fun h =>
        hcs (List.Perm.eq_nil (h ▸ hcs_perm))
      have hrec := ih (setFirstDead l c.1 c.2) hnd' hcs
        (by rw [halive']; exact hcs_perm)
      rw [hstep, hfire]
      simp only []
      rw [if_neg (by rw [halive']; exact herase_ne)]
      rw [hrec]
      have hpos : 0 < cs.length := List.length_pos.mpr hcs
      have hlen : (c :: cs).length - 1 = (cs.length - 1) + 1 := by
        simp only [List.length_cons]
        omega
      rw [hlen, List.replicate_succ]
      simp

/-! ### Field lookup and registration -/

theorem fieldLookup_nil (c : Int × Int) : fieldLookup [] c = none := rfl

theorem fieldLookup_cons (e : (Int × Int) × Nat) (f : List ((Int × Int) × Nat))
    (c : Int × Int) :
    fieldLookup (e :: f) c = if e.1 = c then some e.2 else fieldLookup f c := by
  by_cases h : e.1 = c
  · simp [fieldLookup, h]
  · simp [fieldLookup, h]

theorem fieldLookup_registerDecks (idx : Nat) (ds : List Deck) :
    ∀ (f : List ((Int × Int) × Nat)) (c : Int × Int),
      fieldLookup (registerDecks idx ds f) c =
        if c ∈ ds.map Deck.coord then some idx else fieldLookup f c := by
  induction ds with
  | nil => intro f c; simp [registerDecks]
  | cons d ds ih =>
    intro f c
    rw [show registerDecks idx (d :: ds) f =
          registerDecks idx ds (((d.row, d.column), idx) :: f) from rfl]
    rw [ih]
    by_cases hmem : c ∈ ds.map Deck.coord
    · rw [if_pos hmem, if_pos (by simp [hmem])]
    · rw [if_neg hmem, fieldLookup_cons]
      by_cases hd : d.coord = c
      · rw [if_pos (by simpa [Deck.coord] using hd), if_pos (by simp [← hd])]
      · rw [if_neg (by simpa [Deck.coord] using hd), if_neg (by
          simp only [List.map_cons, List.mem_cons]
          push_neg
          exact ⟨fun hh => hd hh.symm, hmem⟩)]

theorem Ship.init_error_eq (start finish : Int × Int) (e : String)
    (h : Ship.init start finish = .error e) : e = placementError := by
  unfold Ship.init at h
  by_cases h1 : start.1 = finish.1
  · rw [if_pos h1] at h; simp at h
  · rw [if_neg h1] at h
    by_cases h2 : start.2 = finish.2
    · rw [if_pos h2] at h; simp at h
    · rw [if_neg h2] at h
      have := h.symm
      simpa using this

theorem buildShips_ok (specs : List ((Int × Int) × (Int × Int))) :
    ∀ ships : List Ship, buildShips specs = .ok ships →
      ships.length = specs.length ∧
      ∀ (j : Nat) (spec : (Int × Int) × (Int × Int)), specs[j]? = some spec →
        ∃ s, ships[j]? = some s ∧ Ship.init spec.1 spec.2 = .ok s := by
  induction specs with
  | nil =>
    intro ships h
    simp [buildShips] at h
    subst h
    simp
  | cons sp rest ih =>
    intro ships h
    obtain ⟨sp1, sp2⟩ := sp
    rw [buildShips] at h
    cases hs : Ship.init sp1 sp2 with
    | error e => rw [hs] at h; simp [Bind.bind, Except.bind] at h
    | ok s0 =>
      rw [hs] at h
      cases hr : buildShips rest with
      | error e => rw [hr] at h; simp [Bind.bind, Except.bind] at h
      | ok ships' =>
        rw [hr] at h
        simp [Bind.bind, Except.bind] at h
        subst h
        obtain ⟨hlen, htail⟩ := ih ships' hr
        constructor
        · simp [hlen]
        · intro j spec hj
          cases j with
          | zero =>
            simp at hj
            subst hj
            exact ⟨s0, by simp, hs⟩
          | succ j' =>
            simp only [List.getElem?_cons_succ] at hj ⊢
            exact htail j' spec hj

theorem buildShips_error_of_mem (specs : List ((Int × Int) × (Int × Int)))
    (sp : (Int × Int) × (Int × Int)) (hmem : sp ∈ specs)
    (hbad : Ship.init sp.1 sp.2 = .error placementError) :
    buildShips specs = .error placementError := by
  induction specs with
  | nil => simp at hmem
  | cons sp0 rest ih =>
    obtain ⟨a, b⟩ := sp0
    rw [buildShips]
    rcases List.mem_cons.mp hmem with heq | hmem'
    · have hbad' : Ship.init a b = .error placementError := by
        rw [heq] at hbad
        exact hbad
      rw [hbad']
      rfl
    · cases hs : Ship.init a b with
      | error e =>
        rw [Ship.init_error_eq a b e hs]
        rfl
      | ok s0 =>
        rw [ih hmem']
        rfl

/-! ### Forwarding through a single-ship field -/

theorem Battleship.fire_single (s : Ship) (f : List ((Int × Int) × Nat))
    (c : Int × Int) (hf : fieldLookup f c = some 0) :
    Battleship.fire ⟨[s], f⟩ c =
      ((s.fire c.1 c.2).1, ⟨[(s.fire c.1 c.2).2], f⟩) := by
  have hl : Battleship.lookup ⟨[s], f⟩ c = some 0 := hf
  simp [Battleship.fire, hl]

theorem Battleship.fireSeq_single (P : List (Int × Int)) :
    ∀ (s : Ship) (f : List ((Int × Int) × Nat)),
      (∀ c ∈ P, fieldLookup f c = some 0) →
      (Battleship.fireSeq ⟨[s], f⟩ P).1 = (Ship.fireSeq s P).1 := by
  induction P with
  | nil => intro s f _; rfl
  | cons c cs ih =>
    intro s f hP
    have h1 := Battleship.fire_single s f c (hP c (by simp))
    have hstepB : (Battleship.fireSeq ⟨[s], f⟩ (c :: cs)).1 =
        (Battleship.fire ⟨[s], f⟩ c).1 ::
          (Battleship.fireSeq (Battleship.fire ⟨[s], f⟩ c).2 cs).1 := rfl
    have hstepS : (Ship.fireSeq s (c :: cs)).1 =
        (s.fire c.1 c.2).1 :: (Ship.fireSeq (s.fire c.1 c.2).2 cs).1 := rfl
    rw [hstepB, hstepS, h1]
    simp only []
    rw [ih (s.fire c.1 c.2).2 f (fun x hx => hP x (by simp [hx]))]

/-! ### Claims C1, C2, C3 -/

/-- Claim C1: for every ship and every permutation of its deck
coordinates, firing (via the field, or via `Ship.fire`) at each of the
ship's deck coordinates exactly once, in that order, returns Hit for
every shot except the last, and Sunk for the last shot. -/
theorem claim1_all_decks_once_hits_then_sunk
    (start finish : Int × Int) (s : Ship) (b : Battleship)
    (hs : Ship.init start finish = .ok s)
    (hb : Battleship.init [(start, finish)] = .ok b)
    (P : List (Int × Int)) (hP : List.Perm P (s.decks.map Deck.coord)) :
    (Ship.fireSeq s P).1 =
      List.replicate (s.decks.length - 1) "Hit!" ++ ["Sunk!"] ∧
    (Battleship.fireSeq b P).1 =
      List.replicate (s.decks.length - 1) "Hit!" ++ ["Sunk!"] := by
  have hnd := shipInit_coords_nodup start finish s hs
  have halive := shipInit_all_alive start finish s hs
  have hnn := shipInit_decks_ne_nil start finish s hs
  have hAC : aliveCoords s.decks = s.decks.map Deck.coord :=
    aliveCoords_of_all_alive s.decks halive
  have hPne : P ≠ [] := by
    intro h
    subst h
    have hmapnil : s.decks.map Deck.coord = [] := (List.Perm.nil_eq hP).symm
    exact hnn (by simpa using hmapnil)
  have hship : (Ship.fireSeq s P).1 =
      List.replicate (P.length - 1) "Hit!" ++ ["Sunk!"] :=
    fireSeq_perm_aliveCoords P s.decks hnd hPne (by rw [hAC]; exact hP)
  have hlenP : P.length = s.decks.length := by
    have := hP.length_eq
    simpa using this
  refine ⟨by rw [hship, hlenP], ?_⟩
  have hbuild : buildShips [(start, finish)] = .ok [s] := by
    rw [buildShips, hs]
    rfl
  have hb' : b = ⟨[s], registerDecks 0 s.decks []⟩ := by
    unfold Battleship.init at hb
    rw [hbuild] at hb
    simp [Bind.bind, Except.bind] at hb
    rw [← hb]
    rfl
  subst hb'
  have hf : ∀ c ∈ P, fieldLookup (registerDecks 0 s.decks []) c = some 0 := by
    intro c hc
    have hcc : c ∈ s.decks.map Deck.coord := hP.subset hc
    rw [fieldLookup_registerDecks, if_pos hcc]
  rw [Battleship.fireSeq_single P s _ hf, hship, hlenP]

/-- Witness for C1 on the concrete horizontal ship (0,0)–(0,2), fired in
the order (0,1), (0,0), (0,2). -/
theorem claim1_witness :
    (Ship.fireSeq ⟨[⟨0, 0, true⟩, ⟨0, 1, true⟩, ⟨0, 2, true⟩]⟩
        [(0, 1), (0, 0), (0, 2)]).1 = ["Hit!", "Hit!", "Sunk!"] ∧
    (Battleship.fireSeq
        ⟨[⟨[⟨0, 0, true⟩, ⟨0, 1, true⟩, ⟨0, 2, true⟩]⟩],
         [((0, 2), 0), ((0, 1), 0), ((0, 0), 0)]⟩
        [(0, 1), (0, 0), (0, 2)]).1 = ["Hit!", "Hit!", "Sunk!"] := by
  have h := claim1_all_decks_once_hits_then_sunk (0, 0) (0, 2)
    ⟨[⟨0, 0, true⟩, ⟨0, 1, true⟩, ⟨0, 2, true⟩]⟩
    ⟨[⟨[⟨0, 0, true⟩, ⟨0, 1, true⟩, ⟨0, 2, true⟩]⟩],
     [((0, 2), 0), ((0, 1), 0), ((0, 0), 0)]⟩
    (by rfl) (by rfl) [(0, 1), (0, 0), (0, 2)] (by decide)
  exact ⟨by rw [h.1]; rfl, by rw [h.2]; rfl⟩

/-- Claim C2: for axis-aligned endpoints, `Ship.__init__` succeeds and
the number of decks is `|Δrow| + |Δcolumn| + 1`; `start == end` yields
exactly one deck. -/
theorem claim2_axis_aligned_deck_count (start finish : Int × Int)
    (h : start.1 = finish.1 ∨ start.2 = finish.2) :
    (Ship.init start finish).map (fun s => s.decks.length) =
      .ok ((start.1 - finish.1).natAbs + (start.2 - finish.2).natAbs + 1) := by
  by_cases h1 : start.1 = finish.1
  · have hok : Ship.init start finish =
        .ok ⟨(List.range ((max start.2 finish.2 - min start.2 finish.2).toNat + 1)).map
          (fun (i : Nat) => Deck.new start.1 (min start.2 finish.2 + (i : Int)))⟩ := by
      unfold Ship.init
      rw [if_pos h1]
    rw [hok]
    simp only [Except.map, List.length_map, List.length_range, Except.ok.injEq]
    omega
  · have h2 : start.2 = finish.2 := h.resolve_left h1
    have hok : Ship.init start finish =
        .ok ⟨(List.range ((max start.1 finish.1 - min start.1 finish.1).toNat + 1)).map
          (fun (i : Nat) => Deck.new (min start.1 finish.1 + (i : Int)) start.2)⟩ := by
      unfold Ship.init
      rw [if_neg h1, if_pos h2]
    rw [hok]
    simp only [Except.map, List.length_map, List.length_range, Except.ok.injEq]
    omega

/-- Witness for C2: the ships (0,0)–(0,2) (three decks) and the
degenerate (5,5)–(5,5) (one deck). -/
theorem claim2_witness :
    (Ship.init (0, 0) (0, 2)).map (fun s => s.decks.length) = .ok 3 ∧
    (Ship.init (5, 5) (5, 5)).map (fun s => s.decks.length) = .ok 1 := by
  have h1 := claim2_axis_aligned_deck_count (0, 0) (0, 2) (Or.inl rfl)
  have h2 := claim2_axis_aligned_deck_count (5, 5) (5, 5) (Or.inl rfl)
  constructor
  · rw [h1]
    simp only [Except.ok.injEq]
    decide
  · rw [h2]
    simp only [Except.ok.injEq]
    decide

/-- Claim C3: endpoints whose rows differ and whose columns differ make
`Ship.__init__` raise the placement error, and a field whose ship list
contains such a pair fails with the same error (the whole construction
aborts). -/
theorem claim3_non_axis_aligned_aborts (start finish : Int × Int)
    (hr : start.1 ≠ finish.1) (hc : start.2 ≠ finish.2)
    (specs : List ((Int × Int) × (Int × Int))) (hmem : (start, finish) ∈ specs) :
    Ship.init start finish = .error placementError ∧
    Battleship.init specs = .error placementError := by
  have h1 := Ship.init_error_of_both_ne start finish hr hc
  refine ⟨h1, ?_⟩
  have h2 : buildShips specs = .error placementError :=
    buildShips_error_of_mem specs (start, finish) hmem h1
  unfold Battleship.init
  rw [h2]
  rfl

/-- Witness for C3: the diagonal pair (1,2)–(3,4), alone as a ship and
inside a two-ship field list. -/
theorem claim3_witness :
    Ship.init (1, 2) (3, 4) = .error placementError ∧
    Battleship.init [((0, 0), (0, 1)), ((1, 2), (3, 4))] =
      .error placementError :=
  claim3_non_axis_aligned_aborts (1, 2) (3, 4) (by decide) (by decide)
    [((0, 0), (0, 1)), ((1, 2), (3, 4))] (by decide)

/-! ### Claims C4 and C5 -/

/-- Claim C4: firing at a location that is not a key of the field's
index returns Miss and leaves the whole state (every ship, every deck)
unchanged. -/
theorem claim4_unindexed_fire_misses_and_frames (b : Battleship)
    (location : Int × Int) (h : ∀ e ∈ b.field, e.1 ≠ location) :
    b.fire location = ("Miss!", b) := by
  have hl : b.lookup location = none := by
    unfold Battleship.lookup fieldLookup
    rw [List.find?_eq_none.mpr (fun e he => by simpa using h e he)]
    rfl
  simp [Battleship.fire, hl]

/-- Witness for C4: a one-ship field fired at the unoccupied (1,1) and
at the negative (-3,-7). -/
theorem claim4_witness :
    Battleship.fire
        ⟨[⟨[⟨0, 0, true⟩, ⟨0, 1, true⟩, ⟨0, 2, true⟩]⟩],
         [((0, 2), 0), ((0, 1), 0), ((0, 0), 0)]⟩ (1, 1) =
      ("Miss!",
       ⟨[⟨[⟨0, 0, true⟩, ⟨0, 1, true⟩, ⟨0, 2, true⟩]⟩],
        [((0, 2), 0), ((0, 1), 0), ((0, 0), 0)]⟩) ∧
    Battleship.fire
        ⟨[⟨[⟨0, 0, true⟩, ⟨0, 1, true⟩, ⟨0, 2, true⟩]⟩],
         [((0, 2), 0), ((0, 1), 0), ((0, 0), 0)]⟩ (-3, -7) =
      ("Miss!",
       ⟨[⟨[⟨0, 0, true⟩, ⟨0, 1, true⟩, ⟨0, 2, true⟩]⟩],
        [((0, 2), 0), ((0, 1), 0), ((0, 0), 0)]⟩) :=
  ⟨claim4_unindexed_fire_misses_and_frames _ (1, 1) (by decide),
   claim4_unindexed_fire_misses_and_frames _ (-3, -7) (by decide)⟩

theorem Ship.fire_snd (s : Ship) (row column : Int) :
    (s.fire row column).2 =
      match s.get_deck row column with
      | none => s
      | some _ => ⟨setFirstDead s.decks row column⟩ := by
  unfold Ship.fire
  cases s.get_deck row column with
  | none => rfl
  | some d =>
    simp only []
    split <;> rfl

theorem Ship.fire_fst_some (s : Ship) (row column : Int) (d : Deck)
    (h : s.get_deck row column = some d) :
    (s.fire row column).1 =
      if (setFirstDead s.decks row column).all (fun x => !x.is_alive)
      then "Sunk!" else "Hit!" := by
  unfold Ship.fire
  rw [h]
  simp only []
  split <;> simp_all

theorem setFirstDead_idem (l : List Deck) (row column : Int) :
    setFirstDead (setFirstDead l row column) row column =
      setFirstDead l row column := by
  induction l with
  | nil => rfl
  | cons d ds ih =>
    cases hm : hitP row column d with
    | true =>
      have hm' : hitP row column (⟨d.row, d.column, false⟩ : Deck) = true := hm
      simp [setFirstDead, hm, hm']
    | false =>
      simp [setFirstDead, hm, ih]

theorem get_deck_isSome_iff (s : Ship) (row column : Int) :
    (∃ d, s.get_deck row column = some d) ↔
      (row, column) ∈ s.decks.map Deck.coord := by
  constructor
  · intro ⟨d, hd⟩
    have := List.find?_some hd
    have hmem := List.mem_of_find?_eq_some hd
    rw [hitP_iff_coord] at this
    exact this ▸ List.mem_map_of_mem Deck.coord hmem
  · intro h
    exact find?_hitP_of_mem s.decks (row, column) h

/-- Claim C5: re-firing the same deck coordinate leaves the state
identical to the state after the first shot, and its outcome depends
only on the current alive-state of the decks: Sunk again if every deck
is dead, Hit again otherwise. -/
theorem claim5_refire_idempotent (s : Ship) (row column : Int) (d : Deck)
    (h : s.get_deck row column = some d) :
    ((s.fire row column).2.fire row column).2 = (s.fire row column).2 ∧
    ((s.fire row column).2.fire row column).1 =
      (if (s.fire row column).2.decks.all (fun x => !x.is_alive)
       then "Sunk!" else "Hit!") := by
  have h1 : (s.fire row column).2 = ⟨setFirstDead s.decks row column⟩ := by
    rw [Ship.fire_snd, h]
  have hmem : (row, column) ∈ s.decks.map Deck.coord :=
    (get_deck_isSome_iff s row column).mp ⟨d, h⟩
  have hmem1 : (row, column) ∈ (s.fire row column).2.decks.map Deck.coord := by
    rw [h1]
    simpa [setFirstDead_map_coord] using hmem
  obtain ⟨d1, hd1⟩ := (get_deck_isSome_iff (s.fire row column).2 row column).mpr hmem1
  have hsfd : setFirstDead (s.fire row column).2.decks row column =
      (s.fire row column).2.decks := by
    rw [h1]
    exact setFirstDead_idem s.decks row column
  constructor
  · rw [Ship.fire_snd, hd1, hsfd]
  · rw [Ship.fire_fst_some _ row column d1 hd1, hsfd]

/-- Witness for C5: a two-deck ship fired twice at (0,0); the second
shot leaves the state fixed and reports Hit again. -/
theorem claim5_witness :
    ((Ship.fire ⟨[⟨0, 0, true⟩, ⟨0, 1, true⟩]⟩ 0 0).2.fire 0 0).2 =
      (Ship.fire ⟨[⟨0, 0, true⟩, ⟨0, 1, true⟩]⟩ 0 0).2 ∧
    ((Ship.fire ⟨[⟨0, 0, true⟩, ⟨0, 1, true⟩]⟩ 0 0).2.fire 0 0).1 = "Hit!" := by
  have h := claim5_refire_idempotent ⟨[⟨0, 0, true⟩, ⟨0, 1, true⟩]⟩ 0 0
    ⟨0, 0, true⟩ (by rfl)
  exact ⟨h.1, by rw [h.2]; rfl⟩

/-! ### Claims C8 and C9 -/

/-- Claim C8: one call to `Ship.fire` mutates at most the alive flag of
the single first deck whose coordinates match (setting it to false) and
nothing else; every other deck, and every coordinate, is exactly as
before; with no matching deck, nothing is mutated at all. -/
theorem claim8_fire_frame (s : Ship) (row column : Int) :
    (s.get_deck row column = none → s.fire row column = ("Miss!", s)) ∧
    (∀ k : Nat, s.decks.findIdx? (hitP row column) = some k →
      (s.fire row column).2.decks = s.decks.set k ⟨row, column, false⟩ ∧
      ∃ a : Bool, s.decks[k]? = some ⟨row, column, a⟩) := by
  refine ⟨fun h => Ship.fire_miss s row column h, ?_⟩
  intro k hk
  obtain ⟨hklt, hpk, _⟩ := List.findIdx?_eq_some_iff_getElem.mp hk
  have hmemk : s.decks[k] ∈ s.decks := List.getElem_mem hklt
  have hfind : ∃ d, s.decks.find? (hitP row column) = some d := by
    have : (s.decks.find? (hitP row column)).isSome := by
      rw [List.find?_isSome]
      exact ⟨s.decks[k], hmemk, hpk⟩
    exact Option.isSome_iff_exists.mp this
  obtain ⟨d, hd⟩ := hfind
  have hsnd : (s.fire row column).2 = ⟨setFirstDead s.decks row column⟩ := by
    rw [Ship.fire_snd]
    have hgd : s.get_deck row column = some d := hd
    rw [hgd]
  constructor
  · rw [hsnd]
    exact setFirstDead_eq_set s.decks row column k hk
  · obtain ⟨hr, hc⟩ := (hitP_iff row column _).mp hpk
    refine ⟨(s.decks[k]).is_alive, ?_⟩
    rw [List.getElem?_eq_getElem hklt]
    congr 1
    cases hdk : s.decks[k]
    simp_all

/-- Witness for C8: a two-deck ship; firing outside misses and changes
nothing, firing at (0,1) rewrites exactly index 1. -/
theorem claim8_witness :
    Ship.fire ⟨[⟨0, 0, true⟩, ⟨0, 1, true⟩]⟩ 5 5 =
      ("Miss!", ⟨[⟨0, 0, true⟩, ⟨0, 1, true⟩]⟩) ∧
    (Ship.fire ⟨[⟨0, 0, true⟩, ⟨0, 1, true⟩]⟩ 0 1).2.decks =
      [⟨0, 0, true⟩, ⟨0, 1, true⟩].set 1 ⟨0, 1, false⟩ :=
  ⟨(claim8_fire_frame ⟨[⟨0, 0, true⟩, ⟨0, 1, true⟩]⟩ 5 5).1 (by rfl),
   ((claim8_fire_frame ⟨[⟨0, 0, true⟩, ⟨0, 1, true⟩]⟩ 0 1).2 1 (by rfl)).1⟩

theorem countP_beq_le_one_of_nodup (L : List (Int × Int)) (hnd : L.Nodup)
    (c : Int × Int) : L.countP (fun x => x == c) ≤ 1 := by
  induction L with
  | nil => simp
  | cons a L ih =>
    rw [List.nodup_cons] at hnd
    by_cases hac : a = c
    · subst hac
      have h0 : L.countP (fun x => x == a) = 0 := by
        rw [List.countP_eq_zero]
        intro x hx
        simp only [beq_iff_eq]
        intro hxc
        subst hxc
        exact hnd.1 hx
      rw [List.countP_cons, h0]
      simp
    · rw [List.countP_cons]
      have hfa : (a == c) = false := by simp [hac]
      rw [hfa]
      simpa using ih hnd.2

/-- Claim C9: the decks of a constructed ship have pairwise distinct
coordinates, so at most one deck matches any fired coordinate. -/
theorem claim9_constructed_coords_distinct (start finish : Int × Int)
    (s : Ship) (h : Ship.init start finish = .ok s) :
    (s.decks.map Deck.coord).Nodup ∧
    ∀ row column : Int, s.decks.countP (hitP row column) ≤ 1 := by
  have hnd := shipInit_coords_nodup start finish s h
  refine ⟨hnd, fun row column => ?_⟩
  have h1 : s.decks.countP (hitP row column) =
      (s.decks.map Deck.coord).countP (fun x => x == (row, column)) := by
    rw [List.countP_map]
    refine List.countP_congr (fun d _ => ?_)
    simp [Function.comp, hitP, Deck.coord, Prod.ext_iff]
  rw [h1]
  exact countP_beq_le_one_of_nodup (s.decks.map Deck.coord) hnd (row, column)

/-- Witness for C9: the concrete vertical ship (2,3)–(4,3). -/
theorem claim9_witness :
    ((List.map Deck.coord
      [⟨2, 3, true⟩, ⟨3, 3, true⟩, ⟨4, 3, true⟩]).Nodup) ∧
    [⟨2, 3, true⟩, ⟨3, 3, true⟩, (⟨4, 3, true⟩ : Deck)].countP (hitP 3 3) ≤ 1 := by
  have h := claim9_constructed_coords_distinct (2, 3) (4, 3)
    ⟨[⟨2, 3, true⟩, ⟨3, 3, true⟩, ⟨4, 3, true⟩]⟩ (by rfl)
  exact ⟨h.1, h.2 3 3⟩

/-! ### Claim C10 -/

theorem setFirstDead_exists_alive (l : List Deck) (row column : Int)
    (hlen : 2 ≤ l.length) (halive : ∀ d ∈ l, d.is_alive = true) :
    ∃ d ∈ setFirstDead l row column, d.is_alive = true := by
  cases l with
  | nil => simp at hlen
  | cons d1 ds =>
    cases ds with
    | nil => simp at hlen
    | cons d2 ds2 =>
      cases hm : hitP row column d1 with
      | true =>
        refine ⟨d2, ?_, halive d2 (by simp)⟩
        simp [setFirstDead, hm]
      | false =>
        refine ⟨d1, ?_, halive d1 (by simp)⟩
        simp [setFirstDead, hm]

theorem ship_first_fire_not_sunk (s : Ship) (hlen : 2 ≤ s.decks.length)
    (halive : ∀ d ∈ s.decks, d.is_alive = true) (row column : Int) :
    (s.fire row column).1 ≠ "Sunk!" := by
  cases hgd : s.get_deck row column with
  | none =>
    rw [Ship.fire_miss s row column hgd]
    show ("Miss!" : String) ≠ "Sunk!"
    decide
  | some d =>
    rw [Ship.fire_fst_some s row column d hgd]
    obtain ⟨da, hda, hda2⟩ := setFirstDead_exists_alive s.decks row column hlen halive
    have hall : (setFirstDead s.decks row column).all (fun x => !x.is_alive) = false := by
      rw [List.all_eq_false]
      exact ⟨da, hda, by simp [hda2]⟩
    rw [hall]
    simp only [Bool.false_eq_true, if_false]
    decide

theorem buildShips_mem (specs : List ((Int × Int) × (Int × Int)))
    (ships : List Ship) (h : buildShips specs = .ok ships) :
    ∀ s ∈ ships, ∃ start finish : Int × Int, Ship.init start finish = .ok s := by
  intro s hs
  obtain ⟨hlen, hidx⟩ := buildShips_ok specs ships h
  obtain ⟨j, hj⟩ := List.mem_iff_getElem?.mp hs
  have hjlt : j < ships.length := by
    by_contra hge
    rw [List.getElem?_eq_none (le_of_not_lt hge)] at hj
    simp at hj
  have hjspec : j < specs.length := by omega
  obtain ⟨s', hs', hinit⟩ := hidx j specs[j] (List.getElem?_eq_getElem hjspec)
  rw [hj] at hs'
  obtain rfl : s = s' := by simpa using hs'
  exact ⟨specs[j].1, specs[j].2, hinit⟩

theorem battleshipInit_ships (specs : List ((Int × Int) × (Int × Int)))
    (b : Battleship) (hb : Battleship.init specs = .ok b) :
    buildShips specs = .ok b.ships ∧
    b.field = registerShips 0 b.ships [] := by
  cases hbs : buildShips specs with
  | error e =>
    unfold Battleship.init at hb
    rw [hbs] at hb
    simp [Bind.bind, Except.bind] at hb
  | ok ships =>
    unfold Battleship.init at hb
    rw [hbs] at hb
    simp [Bind.bind, Except.bind] at hb
    rw [← hb]
    exact ⟨rfl, rfl⟩

/-- Claim C10: immediately after a field is constructed every deck of
every ship is alive; hence the first shot at any ship with at least two
decks — directly or through the field — cannot return Sunk. -/
theorem claim10_fresh_field_no_instant_sunk
    (specs : List ((Int × Int) × (Int × Int))) (b : Battleship)
    (hb : Battleship.init specs = .ok b) :
    (∀ s ∈ b.ships, ∀ d ∈ s.decks, d.is_alive = true) ∧
    (∀ s ∈ b.ships, 2 ≤ s.decks.length →
      ∀ row column : Int, (s.fire row column).1 ≠ "Sunk!") ∧
    (∀ (location : Int × Int) (idx : Nat) (s : Ship),
      b.lookup location = some idx → b.ships[idx]? = some s →
      2 ≤ s.decks.length → (b.fire location).1 ≠ "Sunk!") := by
  obtain ⟨hbs, _⟩ := battleshipInit_ships specs b hb
  have halive : ∀ s ∈ b.ships, ∀ d ∈ s.decks, d.is_alive = true := by
    intro s hs
    obtain ⟨st, fi, hinit⟩ := buildShips_mem specs b.ships hbs s hs
    exact shipInit_all_alive st fi s hinit
  have hnosunk : ∀ s ∈ b.ships, 2 ≤ s.decks.length →
      ∀ row column : Int, (s.fire row column).1 ≠ "Sunk!" :=
    fun s hs hlen row column =>
      ship_first_fire_not_sunk s hlen (halive s hs) row column
  refine ⟨halive, hnosunk, ?_⟩
  intro location idx s hlook hget hlen
  have hmem : s ∈ b.ships := List.getElem?_mem hget
  have : b.fire location = ((s.fire location.1 location.2).1,
      ⟨b.ships.set idx (s.fire location.1 location.2).2, b.field⟩) := by
    simp [Battleship.fire, hlook, hget]
  rw [this]
  exact hnosunk s hmem hlen location.1 location.2

/-- Witness for C10: the three-deck ship (0,0)–(0,2), freshly placed;
its first shot at (0,0) is not Sunk, directly or through the field. -/
theorem claim10_witness :
    (Ship.fire ⟨[⟨0, 0, true⟩, ⟨0, 1, true⟩, ⟨0, 2, true⟩]⟩ 0 0).1 ≠ "Sunk!" ∧
    (Battleship.fire
        ⟨[⟨[⟨0, 0, true⟩, ⟨0, 1, true⟩, ⟨0, 2, true⟩]⟩],
         [((0, 2), 0), ((0, 1), 0), ((0, 0), 0)]⟩ (0, 0)).1 ≠ "Sunk!" := by
  have h := claim10_fresh_field_no_instant_sunk [((0, 0), (0, 2))]
    ⟨[⟨[⟨0, 0, true⟩, ⟨0, 1, true⟩, ⟨0, 2, true⟩]⟩],
     [((0, 2), 0), ((0, 1), 0), ((0, 0), 0)]⟩ (by rfl)
  refine ⟨h.2.1 ⟨[⟨0, 0, true⟩, ⟨0, 1, true⟩, ⟨0, 2, true⟩]⟩ (by simp)
    (by simp) 0 0, ?_⟩
  exact h.2.2 (0, 0) 0 ⟨[⟨0, 0, true⟩, ⟨0, 1, true⟩, ⟨0, 2, true⟩]⟩
    (by rfl) (by rfl) (by simp)

/-! ### Claim C6: overlap is last-write-wins -/

theorem fieldLookup_registerShips_not_mem (ss : List Ship) :
    ∀ (i : Nat) (f : List ((Int × Int) × Nat)) (c : Int × Int),
      (∀ s ∈ ss, c ∉ s.decks.map Deck.coord) →
      fieldLookup (registerShips i ss f) c = fieldLookup f c := by
  induction ss with
  | nil => intro i f c _; rfl
  | cons s0 rest ih =>
    intro i f c hno
    rw [show registerShips i (s0 :: rest) f =
          registerShips (i + 1) rest (registerDecks i s0.decks f) from rfl]
    rw [ih (i + 1) _ c (fun s hs => hno s (by simp [hs]))]
    rw [fieldLookup_registerDecks, if_neg (hno s0 (by simp))]

theorem fieldLookup_registerShips_last (ss : List Ship) :
    ∀ (i : Nat) (f : List ((Int × Int) × Nat)) (c : Int × Int)
      (j : Nat) (s : Ship),
      ss[j]? = some s → c ∈ s.decks.map Deck.coord →
      (∀ (m : Nat) (t : Ship), j < m → ss[m]? = some t →
        c ∉ t.decks.map Deck.coord) →
      fieldLookup (registerShips i ss f) c = some (i + j) := by
  induction ss with
  | nil => intro i f c j s hj; simp at hj
  | cons s0 rest ih =>
    intro i f c j s hj hc hafter
    rw [show registerShips i (s0 :: rest) f =
          registerShips (i + 1) rest (registerDecks i s0.decks f) from rfl]
    cases j with
    | zero =>
      simp only [List.getElem?_cons_zero, Option.some.injEq] at hj
      subst hj
      rw [fieldLookup_registerShips_not_mem rest (i + 1) _ c (fun t ht => ?_)]
      · rw [fieldLookup_registerDecks, if_pos hc]
        simp
      · obtain ⟨m, hm⟩ := List.mem_iff_getElem?.mp ht
        exact hafter (m + 1) t (Nat.succ_pos m) (by simpa using hm)
    | succ j' =>
      rw [ih (i + 1) _ c j' s (by simpa using hj) hc
        (fun m t hmj hm => hafter (m + 1) t (by omega) (by simpa using hm))]
      congr 1
      omega

/-- Claim C6: when two constructed ships claim the same coordinate, the
field's index maps that coordinate to the ship that appears later in
the input sequence (last-write-wins), while both ships' decks are still
present and fully alive after construction. -/
theorem claim6_overlap_last_write_wins
    (specs : List ((Int × Int) × (Int × Int))) (b : Battleship)
    (hb : Battleship.init specs = .ok b)
    (c : Int × Int) (i j : Nat) (si sj : Ship)
    (hi : b.ships[i]? = some si) (hj : b.ships[j]? = some sj) (_hij : i < j)
    (_hci : c ∈ si.decks.map Deck.coord) (hcj : c ∈ sj.decks.map Deck.coord)
    (hlast : ∀ (m : Nat) (t : Ship), j < m → b.ships[m]? = some t →
      c ∉ t.decks.map Deck.coord) :
    b.lookup c = some j ∧
    (∀ d ∈ si.decks, d.is_alive = true) ∧
    (∀ d ∈ sj.decks, d.is_alive = true) := by
  obtain ⟨hbs, hfield⟩ := battleshipInit_ships specs b hb
  refine ⟨?_, ?_, ?_⟩
  · have := fieldLookup_registerShips_last b.ships 0 [] c j sj hj hcj hlast
    unfold Battleship.lookup
    rw [hfield, this]
    simp
  · obtain ⟨st, fi, hinit⟩ := buildShips_mem specs b.ships hbs si
      (List.getElem?_mem hi)
    exact shipInit_all_alive st fi si hinit
  · obtain ⟨st, fi, hinit⟩ := buildShips_mem specs b.ships hbs sj
      (List.getElem?_mem hj)
    exact shipInit_all_alive st fi sj hinit

/-- Witness for C6: ships (0,0)–(0,1) and (0,1)–(1,1) overlap at (0,1);
the index maps (0,1) to ship 1, the later one. -/
theorem claim6_witness :
    Battleship.lookup
      ⟨[⟨[⟨0, 0, true⟩, ⟨0, 1, true⟩]⟩, ⟨[⟨0, 1, true⟩, ⟨1, 1, true⟩]⟩],
       [((1, 1), 1), ((0, 1), 1), ((0, 1), 0), ((0, 0), 0)]⟩ (0, 1) =
      some 1 ∧
    (∀ d ∈ (⟨[⟨0, 0, true⟩, ⟨0, 1, true⟩]⟩ : Ship).decks, d.is_alive = true) ∧
    (∀ d ∈ (⟨[⟨0, 1, true⟩, ⟨1, 1, true⟩]⟩ : Ship).decks, d.is_alive = true) := by
  refine claim6_overlap_last_write_wins [((0, 0), (0, 1)), ((0, 1), (1, 1))]
    ⟨[⟨[⟨0, 0, true⟩, ⟨0, 1, true⟩]⟩, ⟨[⟨0, 1, true⟩, ⟨1, 1, true⟩]⟩],
     [((1, 1), 1), ((0, 1), 1), ((0, 1), 0), ((0, 0), 0)]⟩
    (by rfl) (0, 1) 0 1 _ _ (by rfl) (by rfl) (by decide)
    (by decide) (by decide) ?_
  intro m t hm hgt
  rw [List.getElem?_eq_none (by simp; omega)] at hgt
  simp at hgt

/-! ### Claim C7: the index stays consistent under fire -/

/-- Every field entry names a valid ship index whose ship has a deck at
exactly the entry's coordinate. -/
def Battleship.Inv (b : Battleship) : Prop :=
  ∀ e ∈ b.field, ∃ s, b.ships[e.2]? = some s ∧ e.1 ∈ s.decks.map Deck.coord

/-- Fire an arbitrary sequence of shots, keeping only the final state. -/
def Battleship.fireAll (b : Battleship) : List (Int × Int) → Battleship
  | [] => b
  | c :: cs => ((b.fire c).2).fireAll cs

theorem mem_registerDecks (idx : Nat) (ds : List Deck) :
    ∀ (f : List ((Int × Int) × Nat)) (e : (Int × Int) × Nat),
      e ∈ registerDecks idx ds f →
      (e.2 = idx ∧ e.1 ∈ ds.map Deck.coord) ∨ e ∈ f := by
  induction ds with
  | nil => intro f e he; exact Or.inr he
  | cons d ds ih =>
    intro f e he
    rw [show registerDecks idx (d :: ds) f =
          registerDecks idx ds (((d.row, d.column), idx) :: f) from rfl] at he
    rcases ih _ e he with ⟨h2, h1⟩ | hf
    · exact Or.inl ⟨h2, by simp [h1]⟩
    · rcases List.mem_cons.mp hf with heq | hf2
      · subst heq
        exact Or.inl ⟨rfl, by simp [Deck.coord]⟩
      · exact Or.inr hf2

theorem mem_registerShips (ss : List Ship) :
    ∀ (i : Nat) (f : List ((Int × Int) × Nat)) (e : (Int × Int) × Nat),
      e ∈ registerShips i ss f →
      (∃ (j : Nat) (s : Ship), ss[j]? = some s ∧ e.2 = i + j ∧
        e.1 ∈ s.decks.map Deck.coord) ∨ e ∈ f := by
  induction ss with
  | nil => intro i f e he; exact Or.inr he
  | cons s0 rest ih =>
    intro i f e he
    rw [show registerShips i (s0 :: rest) f =
          registerShips (i + 1) rest (registerDecks i s0.decks f) from rfl] at he
    rcases ih (i + 1) _ e he with ⟨j, s, hj, h2, h1⟩ | hf
    · exact Or.inl ⟨j + 1, s, by simpa using hj, by omega, h1⟩
    · rcases mem_registerDecks i s0.decks f e hf with ⟨h2, h1⟩ | hf2
      · exact Or.inl ⟨0, s0, by simp, by omega, h1⟩
      · exact Or.inr hf2

theorem battleshipInit_Inv (specs : List ((Int × Int) × (Int × Int)))
    (b : Battleship) (hb : Battleship.init specs = .ok b) : b.Inv := by
  obtain ⟨_, hfield⟩ := battleshipInit_ships specs b hb
  intro e he
  rw [hfield] at he
  rcases mem_registerShips b.ships 0 [] e he with ⟨j, s, hj, h2, h1⟩ | hf
  · refine ⟨s, ?_, h1⟩
    rw [h2]
    simpa using hj
  · simp at hf

theorem Ship.fire_coords (s : Ship) (row column : Int) :
    (s.fire row column).2.decks.map Deck.coord = s.decks.map Deck.coord := by
  rw [Ship.fire_snd]
  cases s.get_deck row column with
  | none => rfl
  | some d => exact setFirstDead_map_coord s.decks row column

theorem fire_preserves_Inv (b : Battleship) (hInv : b.Inv)
    (location : Int × Int) :
    (b.fire location).2.Inv ∧ (b.fire location).2.field = b.field := by
  cases hl : b.lookup location with
  | none =>
    have : b.fire location = ("Miss!", b) := by simp [Battleship.fire, hl]
    rw [this]
    exact ⟨hInv, rfl⟩
  | some idx =>
    cases hg : b.ships[idx]? with
    | none =>
      have : b.fire location = ("Miss!", b) := by simp [Battleship.fire, hl, hg]
      rw [this]
      exact ⟨hInv, rfl⟩
    | some ship =>
      have hlt : idx < b.ships.length := by
        by_contra hge
        rw [List.getElem?_eq_none (le_of_not_lt hge)] at hg
        simp at hg
      have hfire : (b.fire location).2 =
          ⟨b.ships.set idx (ship.fire location.1 location.2).2, b.field⟩ := by
        simp [Battleship.fire, hl, hg]
      rw [hfire]
      refine ⟨?_, rfl⟩
      intro e he
      obtain ⟨s, hs, hc⟩ := hInv e he
      by_cases hidx : e.2 = idx
      · have hsship : s = ship := by
          rw [hidx, hg] at hs
          exact (by simpa using hs : ship = s).symm
        subst hsship
        refine ⟨(s.fire location.1 location.2).2, ?_, ?_⟩
        · show (b.ships.set idx (s.fire location.1 location.2).2)[e.2]? = _
          rw [hidx]
          exact List.getElem?_set_self hlt
        · rw [Ship.fire_coords]
          exact hc
      · refine ⟨s, ?_, hc⟩
        show (b.ships.set idx (ship.fire location.1 location.2).2)[e.2]? = some s
        rw [List.getElem?_set_ne (fun h => hidx h.symm)]
        exact hs

theorem fireAll_preserves_Inv (shots : List (Int × Int)) :
    ∀ b : Battleship, b.Inv →
      (b.fireAll shots).Inv ∧ (b.fireAll shots).field = b.field := by
  induction shots with
  | nil => intro b hInv; exact ⟨hInv, rfl⟩
  | cons c cs ih =>
    intro b hInv
    obtain ⟨h1, h2⟩ := fire_preserves_Inv b hInv c
    obtain ⟨h3, h4⟩ := ih (b.fire c).2 h1
    exact ⟨h3, by rw [Battleship.fireAll, h4, h2]⟩

/-- Claim C7: in every state reachable from a constructed field by any
sequence of fire calls, every coordinate key of the index maps to a
ship that contains a deck at exactly that (row, column), and fire never
removes an index entry (the field is literally unchanged). -/
theorem claim7_reachable_index_consistent
    (specs : List ((Int × Int) × (Int × Int))) (b : Battleship)
    (hb : Battleship.init specs = .ok b) (shots : List (Int × Int)) :
    (b.fireAll shots).field = b.field ∧
    ∀ e ∈ (b.fireAll shots).field,
      ∃ s, (b.fireAll shots).ships[e.2]? = some s ∧
        ∃ d ∈ s.decks, d.row = e.1.1 ∧ d.column = e.1.2 := by
  obtain ⟨hInv, hfield⟩ :=
    fireAll_preserves_Inv shots b (battleshipInit_Inv specs b hb)
  refine ⟨hfield, fun e he => ?_⟩
  obtain ⟨s, hs, hc⟩ := hInv e he
  refine ⟨s, hs, ?_⟩
  rw [List.mem_map] at hc
  obtain ⟨d, hd, hdc⟩ := hc
  refine ⟨d, hd, ?_⟩
  rw [show e.1 = Deck.coord d from hdc.symm]
  exact ⟨rfl, rfl⟩

/-- Witness for C7: the one-ship field (0,0)–(0,1) after the shots
(0,0), (5,5), (0,0) keeps its index unchanged. -/
theorem claim7_witness :
    (Battleship.fireAll
        ⟨[⟨[⟨0, 0, true⟩, ⟨0, 1, true⟩]⟩], [((0, 1), 0), ((0, 0), 0)]⟩
        [(0, 0), (5, 5), (0, 0)]).field = [((0, 1), 0), ((0, 0), 0)] :=
  (claim7_reachable_index_consistent [((0, 0), (0, 1))]
    ⟨[⟨[⟨0, 0, true⟩, ⟨0, 1, true⟩]⟩], [((0, 1), 0), ((0, 0), 0)]⟩
    (by rfl) [(0, 0), (5, 5), (0, 0)]).1

end PyBattleship
